import Mathlib

/-!
Verification of the quiz application core (`models.py`): the question data
model, dataset loading and tag filtering, quiz generation, and the scoring
engine.  Python lists become Lean lists, Python `set` operations become
`Finset` operations via `List.toFinset`, float scores become `ℚ` (the
arithmetic involved is exact small-denominator division), the `dict` of
answers becomes a function `Nat → Option (List String)` (`dict.get` with a
default becomes `Option.getD`), and exceptions become `Except`.
-/

namespace QuizApp

/-- Mirrors `class Question` (models.py lines 8-52): text, ordered choices,
correct answers, mode string and tags, exactly as stored by `__init__`. -/
structure Question where
  question : String
  choices : List String
  correct : List String
  mode : String
  tags : List String
deriving Repr, DecidableEq

/-- Mirrors `Question.is_single` (models.py line 28): `self.mode == "single"`. -/
def Question.is_single (q : Question) : Bool :=
  q.mode = "single"

/-- Mirrors `Question.is_multiple` (models.py line 32): `self.mode == "multiple"`. -/
def Question.is_multiple (q : Question) : Bool :=
  q.mode = "multiple"

/-- One raw JSON record as `load` consumes it (models.py lines 98-105): each
field is optional, `item.get(key, default)` supplies the default.  Fields
present with the right type are modelled; the record collection itself comes
from the parse step. -/
structure RawRecord where
  question : Option String
  choices : Option (List String)
  correct : Option (List String)
  mode : Option String
  tags : Option (List String)
deriving Repr, DecidableEq

/-- Mirrors the `Question(...)` construction inside `load` (models.py lines
99-105): every `item.get(key, default)` becomes `Option.getD`.  The
`__init__` normalisations (`list(correct) if correct is not None else []`,
`tags or []`) coincide with these defaults on list-valued fields. -/
def questionOfRecord (item : RawRecord) : Question :=
  { question := item.question.getD ""
    choices := item.choices.getD []
    correct := item.correct.getD []
    mode := item.mode.getD "single"
    tags := item.tags.getD [] }

/-- Mirrors `class QuestionDataset` state (models.py lines 69-79): the loaded
question sequence and the remembered file path. -/
structure QuestionDataset where
  questions : List Question
  file_path : Option String
deriving Repr, DecidableEq

/-- The two exceptions `load` can raise (models.py lines 91-95):
`FileNotFoundError` when the path does not exist, and `json.JSONDecodeError`
(the parse error) when the content is not well-formed. -/
inductive LoadError where
  | notFound
  | parseError
deriving Repr, DecidableEq

/-- Mirrors `QuestionDataset.load` (models.py lines 81-110) as a state
transition.  The file system is `fs` (path to content when readable) and
`parse` is `json.load` composed with the record-shape reading: `none` when
the content is not a well-formed collection of records.  The Python body
raises `FileNotFoundError` before opening the file, raises the parse error
inside `json.load`, accumulates the converted questions in a local list
(lines 97-106), and only then assigns `self.questions` and `self.file_path`
(lines 108-109); accordingly the returned state is the input dataset on
every error path and the fully replaced dataset on success. -/
def loadRun (fs : String → Option String) (parse : String → Option (List RawRecord))
    (ds : QuestionDataset) (path : String) :
    Except LoadError Unit × QuestionDataset :=
  match fs path with
  | none => (Except.error LoadError.notFound, ds)
  | some content =>
    match parse content with
    | none => (Except.error LoadError.parseError, ds)
    | some data =>
      (Except.ok (), { questions := data.map questionOfRecord, file_path := some path })

/-- Mirrors `QuestionDataset.get_questions_by_tags` (models.py lines
119-128).  `if not tags` is true for `None` and for the empty list, and both
return `list(self.questions)` (a fresh copy, same value).  Otherwise the
list comprehension keeps, in order, every question whose tags meet the
filter set (`tags_set.intersection(q.tags)` is non-empty). -/
def get_questions_by_tags (ds : QuestionDataset) (tags : Option (List String)) :
    List Question :=
  match tags with
  | none => ds.questions
  | some [] => ds.questions
  | some ts => ds.questions.filter (fun q => q.tags.any (fun t => ts.contains t))

/-- Python slice `xs[:k]` for an `int` bound `k`: a non-negative bound takes
the first `k` elements; a negative bound stops `|k|` before the end. -/
def pySliceTo {α : Type} (xs : List α) (k : Int) : List α :=
  if 0 ≤ k then xs.take k.toNat
  else xs.take (xs.length - (-k).toNat)

/-- Mirrors `QuizGenerator.generate` (models.py lines 142-153).  The outcome
of `random.shuffle(pool)` is modelled by `shuffleFn`, the reordering the
random source produced on this call (applied to the pool in place of the
in-place shuffle). -/
def generate (shuffleFn : List Question → List Question) (ds : QuestionDataset)
    (tags : Option (List String)) (n_questions : Int) (shuffle : Bool) :
    List Question :=
  let pool := get_questions_by_tags ds tags
  if pool = [] then []
  else
    let pool2 := if shuffle then shuffleFn pool else pool
    pySliceTo pool2 (min n_questions (pool2.length : Int))

/-- `QuizGenerator.generate` as a transition on the dataset state.  The pool
bound at models.py line 147 is a fresh list (`list(self.questions)` at line
125, or the new list built by the comprehension at line 127), so
`random.shuffle(pool)` at line 151 mutates only that fresh list and
`self.dataset.questions` is never assigned or aliased; the dataset component
therefore passes through unchanged. -/
def generateSt (shuffleFn : List Question → List Question) (ds : QuestionDataset)
    (tags : Option (List String)) (n_questions : Int) (shuffle : Bool) :
    List Question × QuestionDataset :=
  let pool := get_questions_by_tags ds tags
  if pool = [] then ([], ds)
  else
    let pool2 := if shuffle then shuffleFn pool else pool
    (pySliceTo pool2 (min n_questions (pool2.length : Int)), ds)

/-- Mirrors `QuizCorrector.score_single` (models.py lines 166-175):
`0.0` when `correct` is empty, else `1.0` exactly when one option is
selected and it lies in `correct`. -/
def score_single (correct selected : List String) : ℚ :=
  if correct = [] then 0
  else
    match selected with
    | [s] => if s ∈ correct then 1 else 0
    | _ => 0

/-- Mirrors `QuizCorrector.score_multiple` (models.py lines 177-201):
both lists pass through `set(...)`, the empty correct set short-circuits to
`0.0`, and otherwise the partial-credit formula is clamped at `0.0`. -/
def score_multiple (correct selected : List String) : ℚ :=
  let correct_set := correct.toFinset
  let selected_set := selected.toFinset
  if correct_set = ∅ then 0
  else
    let intersect := correct_set ∩ selected_set
    let false_selected := selected_set \ correct_set
    let numerator : ℚ := (intersect.card : ℚ)
    let denom : ℚ := (correct_set.card : ℚ)
    max 0 (numerator / denom - (false_selected.card : ℚ) / denom)

/-- The spec formula for multiple-choice scoring, stated over the sets the
spec speaks of: `score = max(0, |correctSet ∩ selected| / |correctSet| −
|selected − correctSet| / |correctSet|)`, with `0.0` for an empty
`correctSet`. -/
def specScoreMultiple (correctSet selected : Finset String) : ℚ :=
  if correctSet = ∅ then 0
  else
    max 0 ((correctSet ∩ selected).card / (correctSet.card : ℚ)
      - ((selected \ correctSet).card : ℚ) / (correctSet.card : ℚ))

/-- One row of the `per_question` list built by `correct_quiz`
(models.py lines 236-244). -/
structure PerQuestion where
  index : Nat
  question : String
  mode : String
  correct : List String
  selected : List String
  score : ℚ
  max_score : ℚ
deriving Repr, DecidableEq

/-- The dictionary `correct_quiz` returns (models.py lines 253-256). -/
structure CorrectionResult where
  per_question : List PerQuestion
  total_score : ℚ
deriving Repr, DecidableEq

/-- The strategy dispatch inside the `correct_quiz` loop (models.py lines
231-234): `score_single` when `q.is_single()`, otherwise `score_multiple`. -/
def scoreOf (q : Question) (selected : List String) : ℚ :=
  if q.is_single then score_single q.correct selected
  else score_multiple q.correct selected

/-- The `for i, q in enumerate(questions)` loop of `correct_quiz`
(models.py lines 229-245), carrying the enumeration index: each iteration
reads `answers.get(i, [])` and appends the per-question record. -/
def perQuestionRecords (answers : Nat → Option (List String)) :
    Nat → List Question → List PerQuestion
  | _, [] => []
  | i, q :: qs =>
    { index := i
      question := q.question
      mode := q.mode
      correct := q.correct
      selected := (answers i).getD []
      score := scoreOf q ((answers i).getD [])
      max_score := 1 } :: perQuestionRecords answers (i + 1) qs

/-- Mirrors `QuizCorrector.correct_quiz` (models.py lines 203-256): the loop
builds the per-question records while accumulating `total_points` (the sum
of the scores), and the percentage is `total_points / len(questions) * 100`
when the quiz is non-empty, `0.0` otherwise. -/
def correct_quiz (questions : List Question) (answers : Nat → Option (List String)) :
    CorrectionResult :=
  let per_question := perQuestionRecords answers 0 questions
  let total_points := (per_question.map PerQuestion.score).sum
  { per_question := per_question
    total_score :=
      if questions = [] then 0
      else (total_points / (questions.length : ℚ)) * 100 }

/-! Helper lemmas about the scoring functions. -/

lemma score_multiple_congr_selected (c s t : List String) (h : s.toFinset = t.toFinset) :
    score_multiple c s = score_multiple c t := by
  simp only [score_multiple, h]

lemma score_multiple_eq_spec (c s : List String) :
    score_multiple c s = specScoreMultiple c.toFinset s.toFinset := rfl

lemma specScoreMultiple_nonneg (C S : Finset String) : 0 ≤ specScoreMultiple C S := by
  unfold specScoreMultiple
  split
  · exact le_refl 0
  · exact le_max_left 0 _

lemma specScoreMultiple_le_one (C S : Finset String) : specScoreMultiple C S ≤ 1 := by
  unfold specScoreMultiple
  split
  · norm_num
  · rename_i hc
    have hpos : 0 < C.card :=
      Finset.card_pos.mpr (Finset.nonempty_iff_ne_empty.mpr hc)
    have hposQ : 0 < (C.card : ℚ) := by exact_mod_cast hpos
    have hsub : (C ∩ S).card ≤ C.card :=
      Finset.card_le_card Finset.inter_subset_left
    have h1 : ((C ∩ S).card : ℚ) / (C.card : ℚ) ≤ 1 := by
      rw [div_le_one hposQ]
      exact_mod_cast hsub
    have h2 : (0 : ℚ) ≤ ((S \ C).card : ℚ) / (C.card : ℚ) := by positivity
    have h3 : ((C ∩ S).card : ℚ) / (C.card : ℚ) - ((S \ C).card : ℚ) / (C.card : ℚ) ≤ 1 := by
      linarith
    exact max_le (by norm_num) h3

lemma score_multiple_nonneg (c s : List String) : 0 ≤ score_multiple c s := by
  rw [score_multiple_eq_spec]
  exact specScoreMultiple_nonneg c.toFinset s.toFinset

lemma score_multiple_le_one (c s : List String) : score_multiple c s ≤ 1 := by
  rw [score_multiple_eq_spec]
  exact specScoreMultiple_le_one c.toFinset s.toFinset

lemma score_single_eq_zero_or_one (c s : List String) :
    score_single c s = 0 ∨ score_single c s = 1 := by
  unfold score_single
  split
  · exact Or.inl rfl
  · split
    · split
      · exact Or.inr rfl
      · exact Or.inl rfl
    · exact Or.inl rfl

lemma score_single_nonneg (c s : List String) : 0 ≤ score_single c s := by
  rcases score_single_eq_zero_or_one c s with h | h <;> simp [h]

lemma score_single_le_one (c s : List String) : score_single c s ≤ 1 := by
  rcases score_single_eq_zero_or_one c s with h | h <;> simp [h]

lemma scoreOf_nonneg (q : Question) (s : List String) : 0 ≤ scoreOf q s := by
  unfold scoreOf
  split
  · exact score_single_nonneg q.correct s
  · exact score_multiple_nonneg q.correct s

lemma scoreOf_le_one (q : Question) (s : List String) : scoreOf q s ≤ 1 := by
  unfold scoreOf
  split
  · exact score_single_le_one q.correct s
  · exact score_multiple_le_one q.correct s

/-! Helper lemmas about the correction loop. -/

lemma perQuestionRecords_length (a : Nat → Option (List String)) (i : Nat)
    (qs : List Question) : (perQuestionRecords a i qs).length = qs.length := by
  induction qs generalizing i with
  | nil => rfl
  | cons q qs ih => simp [perQuestionRecords, ih]

lemma perQuestionRecords_score_bounds (a : Nat → Option (List String)) (i : Nat)
    (qs : List Question) :
    ∀ r ∈ perQuestionRecords a i qs, 0 ≤ r.score ∧ r.score ≤ 1 := by
  induction qs generalizing i with
  | nil => intro r hr; simp [perQuestionRecords] at hr
  | cons q qs ih =>
    intro r hr
    rcases (List.mem_cons).mp hr with h | h
    · subst h
      exact ⟨scoreOf_nonneg q _, scoreOf_le_one q _⟩
    · exact ih (i + 1) r h

lemma sum_scores_nonneg (a : Nat → Option (List String)) (i : Nat) (qs : List Question) :
    0 ≤ ((perQuestionRecords a i qs).map PerQuestion.score).sum := by
  apply List.sum_nonneg
  intro x hx
  obtain ⟨r, hr, rfl⟩ := List.mem_map.mp hx
  exact (perQuestionRecords_score_bounds a i qs r hr).1

lemma sum_scores_le_length (a : Nat → Option (List String)) (i : Nat) (qs : List Question) :
    ((perQuestionRecords a i qs).map PerQuestion.score).sum ≤ (qs.length : ℚ) := by
  have h := List.sum_le_card_nsmul ((perQuestionRecords a i qs).map PerQuestion.score) 1 ?_
  · simpa [perQuestionRecords_length, nsmul_eq_mul] using h
  · intro x hx
    obtain ⟨r, hr, rfl⟩ := List.mem_map.mp hx
    exact (perQuestionRecords_score_bounds a i qs r hr).2

lemma perQuestionRecords_congr (a b : Nat → Option (List String))
    (h : ∀ j, (a j).getD [] = (b j).getD []) (i : Nat) (qs : List Question) :
    perQuestionRecords a i qs = perQuestionRecords b i qs := by
  induction qs generalizing i with
  | nil => rfl
  | cons q qs ih => simp [perQuestionRecords, h, ih]

lemma perQuestionRecords_getElem? (a : Nat → Option (List String)) (i k : Nat)
    (qs : List Question) (q : Question) (hq : qs[k]? = some q) :
    (perQuestionRecords a i qs)[k]? =
      some { index := i + k, question := q.question, mode := q.mode, correct := q.correct,
             selected := (a (i + k)).getD [], score := scoreOf q ((a (i + k)).getD []),
             max_score := 1 } := by
  induction qs generalizing i k with
  | nil => simp at hq
  | cons p qs ih =>
    cases k with
    | zero =>
      simp only [List.getElem?_cons_zero, Option.some.injEq] at hq
      subst hq
      simp [perQuestionRecords]
    | succ k =>
      simp only [List.getElem?_cons_succ] at hq
      have hrec := ih (i + 1) k hq
      have harith : i + 1 + k = i + (k + 1) := by omega
      simpa [perQuestionRecords, harith] using hrec

/-- C1: for every correct-answer list and selected list, `score_multiple`
computes the spec formula `max(0, |correctSet ∩ selected|/|correctSet| −
|selected − correctSet|/|correctSet|)` over the corresponding sets, the
result is clamped at a floor of `0` so it is never negative, and an empty
correct set yields `0`. -/
theorem C1_score_multiple_formula (c s : List String) :
    score_multiple c s = specScoreMultiple c.toFinset s.toFinset ∧
    0 ≤ score_multiple c s ∧
    (c = [] → score_multiple c s = 0) := by
  refine ⟨rfl, score_multiple_nonneg c s, ?_⟩
  intro hc
  subst hc
  simp [score_multiple]

/-- C2: `score_single` returns `1` exactly when the selection is a single
option that belongs to the correct list (so an empty selection, a multiple
selection, a wrong selection, or an empty correct list all yield `0`), and
it only ever returns `0` or `1`. -/
theorem C2_score_single_one_iff (c s : List String) :
    (score_single c s = 1 ↔ ∃ x, s = [x] ∧ x ∈ c) ∧
    (score_single c s = 0 ∨ score_single c s = 1) := by
  refine ⟨?_, score_single_eq_zero_or_one c s⟩
  rcases s with _ | ⟨a, _ | ⟨b, t⟩⟩
  · simp [score_single]
  · by_cases hc : c = []
    · simp [score_single, hc]
    · simp only [score_single, if_neg hc]
      by_cases ha : a ∈ c
      · simp [ha]
      · simp [ha]
  · simp [score_single]

/-- C10: `score_multiple` converts the selection to a set before counting, so
it is invariant under reordering of the selected list and equals its value on
the deduplicated selection. -/
theorem C10_score_multiple_set_invariant (c s t : List String) (hperm : s.Perm t) :
    score_multiple c s = score_multiple c t ∧
    score_multiple c s = score_multiple c s.dedup := by
  constructor
  · exact score_multiple_congr_selected c s t (List.toFinset_eq_of_perm s t hperm)
  · refine score_multiple_congr_selected c s s.dedup ?_
    apply List.toFinset.ext
    intro x
    exact (List.mem_dedup).symm

/-- Witness for C10 at a concrete duplicated, reordered selection. -/
theorem C10_witness :
    score_multiple ["A", "B"] ["A", "B", "A"] = score_multiple ["A", "B"] ["B", "A", "A"] ∧
    score_multiple ["A", "B"] ["A", "B", "A"]
      = score_multiple ["A", "B"] (["A", "B", "A"].dedup) :=
  C10_score_multiple_set_invariant ["A", "B"] ["A", "B", "A"] ["B", "A", "A"] (by decide)

/-- A concrete single-choice question used by witnesses. -/
def qParis : Question :=
  { question := "Capital of France", choices := ["Paris", "Lyon"],
    correct := ["Paris"], mode := "single", tags := ["geo"] }

/-- C3: `correct_quiz` returns the per-question score sum divided by the
number of questions, times 100; an empty quiz yields total `0` and an empty
per-question list; the total always lies in `[0, 100]` and every
per-question score lies in `[0, 1]`. -/
theorem C3_correct_quiz_aggregate (questions : List Question)
    (answers : Nat → Option (List String)) :
    (questions = [] → (correct_quiz questions answers).total_score = 0 ∧
        (correct_quiz questions answers).per_question = []) ∧
    (questions ≠ [] → (correct_quiz questions answers).total_score =
        (((correct_quiz questions answers).per_question.map PerQuestion.score).sum
          / (questions.length : ℚ)) * 100) ∧
    (0 ≤ (correct_quiz questions answers).total_score ∧
      (correct_quiz questions answers).total_score ≤ 100) ∧
    ∀ r ∈ (correct_quiz questions answers).per_question, 0 ≤ r.score ∧ r.score ≤ 1 := by
  refine ⟨?_, ?_, ?_, ?_⟩
  · intro hq
    subst hq
    exact ⟨by simp [correct_quiz, perQuestionRecords], by simp [correct_quiz, perQuestionRecords]⟩
  · intro hq
    simp [correct_quiz, if_neg hq]
  · by_cases hq : questions = []
    · subst hq
      constructor
      · simp [correct_quiz, perQuestionRecords]
      · simp [correct_quiz, perQuestionRecords]
    · have hlen : 0 < questions.length := List.length_pos.mpr hq
      have hlenQ : 0 < (questions.length : ℚ) := by exact_mod_cast hlen
      have hS0 := sum_scores_nonneg answers 0 questions
      have hSle := sum_scores_le_length answers 0 questions
      constructor
      · simp only [correct_quiz, if_neg hq]
        exact mul_nonneg (div_nonneg hS0 hlenQ.le) (by norm_num)
      · simp only [correct_quiz, if_neg hq]
        have h1 : ((perQuestionRecords answers 0 questions).map PerQuestion.score).sum
            / (questions.length : ℚ) ≤ 1 := (div_le_one hlenQ).mpr hSle
        calc ((perQuestionRecords answers 0 questions).map PerQuestion.score).sum
              / (questions.length : ℚ) * 100
            ≤ 1 * 100 := mul_le_mul_of_nonneg_right h1 (by norm_num)
          _ = 100 := by norm_num
  · intro r hr
    exact perQuestionRecords_score_bounds answers 0 questions r
      (by simpa [correct_quiz] using hr)

/-- C8: a quiz position with no entry in the answers mapping is scored as an
empty selection: the correction is unchanged if the missing entry is filled
with the empty list, and the record at that position carries the empty
selection scored by the question's strategy. -/
theorem C8_missing_answer_as_empty (questions : List Question)
    (answers : Nat → Option (List String)) (i : Nat) (h : answers i = none) :
    correct_quiz questions answers
      = correct_quiz questions (Function.update answers i (some [])) ∧
    ∀ q : Question, questions[i]? = some q →
      (correct_quiz questions answers).per_question[i]? =
        some { index := i, question := q.question, mode := q.mode, correct := q.correct,
               selected := [], score := scoreOf q [], max_score := 1 } := by
  have hrec : perQuestionRecords answers 0 questions
      = perQuestionRecords (Function.update answers i (some [])) 0 questions := by
    apply perQuestionRecords_congr
    intro j
    by_cases hj : j = i
    · subst hj
      simp [h, Function.update_same]
    · simp [Function.update_noteq hj]
  constructor
  · simp [correct_quiz, hrec]
  · intro q hq
    have hg := perQuestionRecords_getElem? answers 0 i questions q hq
    simpa [correct_quiz, h] using hg

/-- Witness for C8: a one-question quiz with no answer recorded at
position 0. -/
theorem C8_witness :
    correct_quiz [qParis] (fun _ => none)
      = correct_quiz [qParis] (Function.update (fun _ => none) 0 (some [])) :=
  (C8_missing_answer_as_empty [qParis] (fun _ => none) 0 rfl).1

/-- A concrete multiple-choice question used by witnesses. -/
def qMulti : Question :=
  { question := "Pick the letters", choices := ["A", "B", "C", "D"],
    correct := ["A", "B"], mode := "multiple", tags := ["letters"] }

/-- A concrete dataset used by witnesses. -/
def dsEx : QuestionDataset :=
  { questions := [qParis, qMulti], file_path := some "quiz_dataset.json" }

/-- A question whose stored mode string is neither "single" nor "multiple". -/
def qWeird : Question :=
  { question := "Pick the letters", choices := ["A", "B", "C", "D"],
    correct := ["A", "B"], mode := "weird", tags := [] }

/-- C5: when the shuffle outcome preserves length and the requested count is
non-negative, `generate` returns exactly `min count poolSize` questions: the
empty pool and count `0` give an empty quiz, and an oversized count silently
yields the whole pool. -/
theorem C5_generate_length (shuffleFn : List Question → List Question)
    (ds : QuestionDataset) (tags : Option (List String)) (n : Int) (shuffle : Bool)
    (hlen : ∀ l, (shuffleFn l).length = l.length) (hn : 0 ≤ n) :
    (generate shuffleFn ds tags n shuffle).length
      = min n.toNat (get_questions_by_tags ds tags).length := by
  simp only [generate]
  by_cases hp : get_questions_by_tags ds tags = []
  · simp [hp]
  · rw [if_neg hp]
    have hl2 : (if shuffle then shuffleFn (get_questions_by_tags ds tags)
        else get_questions_by_tags ds tags).length
        = (get_questions_by_tags ds tags).length := by
      split
      · exact hlen _
      · rfl
    have hk : 0 ≤ min n ((if shuffle then shuffleFn (get_questions_by_tags ds tags)
        else get_questions_by_tags ds tags).length : Int) :=
      le_min hn (Int.natCast_nonneg _)
    rw [pySliceTo, if_pos hk, List.length_take, hl2]
    omega

/-- Witness for C5: an oversized request of 5 on the two-question example
dataset returns both questions. -/
theorem C5_witness :
    (generate id dsEx none 5 true).length
      = min ((5 : Int)).toNat (get_questions_by_tags dsEx none).length :=
  C5_generate_length id dsEx none 5 true (fun _ => rfl) (by norm_num)

/-- C6: the tag filter returns the whole question sequence, in order, for an
omitted or empty filter; for a non-empty filter it returns exactly the
questions whose tag set intersects the filter, in original order (a filtered
sublist of the loaded sequence). -/
theorem C6_filter_by_tags (ds : QuestionDataset) (ts : List String) :
    get_questions_by_tags ds none = ds.questions ∧
    get_questions_by_tags ds (some []) = ds.questions ∧
    (ts ≠ [] → get_questions_by_tags ds (some ts)
      = ds.questions.filter (fun q => decide (∃ t, t ∈ q.tags ∧ t ∈ ts))) ∧
    List.Sublist (get_questions_by_tags ds (some ts)) ds.questions := by
  refine ⟨rfl, rfl, ?_, ?_⟩
  · intro hts
    cases ts with
    | nil => exact absurd rfl hts
    | cons a ts' =>
      unfold get_questions_by_tags
      apply List.filter_congr
      intro q _
      rw [Bool.eq_iff_iff]
      simp [List.any_eq_true]
  · cases ts with
    | nil => exact List.Sublist.refl _
    | cons a ts' => exact List.filter_sublist _

/-- C7: `load` fails with the not-found error exactly when the source path
is unreadable and with the parse error exactly when the readable content is
not a well-formed collection of records; every failure leaves the dataset
state unchanged, and success fully replaces the question sequence with the
converted records. -/
theorem C7_load_atomic (fs : String → Option String)
    (parse : String → Option (List RawRecord)) (ds : QuestionDataset) (path : String) :
    ((loadRun fs parse ds path).1 = Except.error LoadError.notFound ↔ fs path = none) ∧
    ((loadRun fs parse ds path).1 = Except.error LoadError.parseError ↔
      ∃ c, fs path = some c ∧ parse c = none) ∧
    (∀ e, (loadRun fs parse ds path).1 = Except.error e →
      (loadRun fs parse ds path).2 = ds) ∧
    (∀ c data, fs path = some c → parse c = some data →
      (loadRun fs parse ds path).1 = Except.ok () ∧
      (loadRun fs parse ds path).2 =
        { questions := data.map questionOfRecord, file_path := some path }) := by
  unfold loadRun
  rcases hfs : fs path with _ | c
  · simp [hfs]
  · rcases hp : parse c with _ | data
    · simp only [hfs, hp]
      refine ⟨by simp, by simp [hp], by simp, ?_⟩
      intro c1 data hc
      rw [Option.some.injEq] at hc
      subst hc
      simp [hp]
    · simp only [hfs, hp]
      refine ⟨by simp, ?_, by simp, ?_⟩
      · constructor
        · intro h
          exact absurd h (by simp)
        · rintro ⟨c1, hc1, hpc1⟩
          rw [Option.some.injEq] at hc1
          subst hc1
          rw [hp] at hpc1
          exact absurd hpc1 (by simp)
      · intro c1 data1 hc hparse
        rw [Option.some.injEq] at hc
        subst hc
        rw [hp] at hparse
        rw [Option.some.injEq] at hparse
        subst hparse
        exact ⟨trivial, rfl⟩

/-- C9: generation acts on a fresh pool list, never on the dataset's own
list: the dataset state passes through `generate` unchanged, the produced
quiz is the usual one, and any later tag filter on the post-state sees the
original load order. -/
theorem C9_generate_preserves_dataset (shuffleFn : List Question → List Question)
    (ds : QuestionDataset) (tags tags2 : Option (List String)) (n : Int) (shuffle : Bool) :
    (generateSt shuffleFn ds tags n shuffle).2 = ds ∧
    (generateSt shuffleFn ds tags n shuffle).1 = generate shuffleFn ds tags n shuffle ∧
    get_questions_by_tags (generateSt shuffleFn ds tags n shuffle).2 tags2
      = get_questions_by_tags ds tags2 := by
  have h2 : (generateSt shuffleFn ds tags n shuffle).2 = ds := by
    simp only [generateSt]
    split
    · rfl
    · rfl
  have h1 : (generateSt shuffleFn ds tags n shuffle).1
      = generate shuffleFn ds tags n shuffle := by
    simp only [generateSt, generate]
    split
    · rfl
    · rfl
  exact ⟨h2, h1, by rw [h2]⟩

/-- C4 counterexample: a record whose mode field holds the unrecognized
string "weird" keeps that mode at load (it does not default to "single"),
and `correct_quiz` scores such a question with the multiple-choice strategy:
selecting just the correct option "A" out of correct `["A", "B"]` yields
partial credit 1/2, while the single-choice strategy the claim prescribes
gives 1. -/
theorem C4_counterexample :
    (questionOfRecord { question := some "Pick the letters"
                        choices := some ["A", "B", "C", "D"]
                        correct := some ["A", "B"]
                        mode := some "weird"
                        tags := some [] }).mode ≠ "single" ∧
    (correct_quiz [qWeird] (fun j => if j = 0 then some ["A"] else none)).per_question.map
        PerQuestion.score = [(1 : ℚ) / 2] ∧
    score_single qWeird.correct ["A"] = 1 := by
  refine ⟨by decide, ?_, by decide⟩
  have hsc : score_multiple ["A", "B"] ["A"] = 1 / 2 := by
    rw [score_multiple_eq_spec]
    unfold specScoreMultiple
    rw [if_neg (by decide)]
    have hc1 : ((["A", "B"] : List String).toFinset
        ∩ (["A"] : List String).toFinset).card = 1 := by decide
    have hc2 : ((["A"] : List String).toFinset
        \ (["A", "B"] : List String).toFinset).card = 0 := by decide
    have hc3 : ((["A", "B"] : List String).toFinset).card = 2 := by decide
    rw [hc1, hc2, hc3]
    rw [max_eq_right (by norm_num)]
    norm_num
  simp [correct_quiz, perQuestionRecords, scoreOf, Question.is_single, qWeird, hsc]

/-- C4 amended: a mode field that is absent defaults to "single" at load,
but an unrecognized mode string is kept as loaded, and the correction
dispatch routes every question whose mode is not exactly "single" —
unrecognized modes included — to the multiple-choice strategy. -/
theorem C4_mode_dispatch (r : RawRecord) (q : Question) (sel : List String) :
    (r.mode = none → (questionOfRecord r).mode = "single") ∧
    (∀ m, r.mode = some m → (questionOfRecord r).mode = m) ∧
    (q.mode = "single" → scoreOf q sel = score_single q.correct sel) ∧
    (q.mode ≠ "single" → scoreOf q sel = score_multiple q.correct sel) := by
  refine ⟨?_, ?_, ?_, ?_⟩
  · intro h
    simp [questionOfRecord, h]
  · intro m h
    simp [questionOfRecord, h]
  · intro h
    simp [scoreOf, Question.is_single, h]
  · intro h
    simp [scoreOf, Question.is_single, h]

end QuizApp
